import Mathlib

/-!
# Verification of the gocom1c COM connection pool

A shallow embedding of the pool engine of the `gocom1c` repository
(`config.go`, `conn.go`, `gocom1c.go`, and the COM worker file), together
with theorems checking the natural-language specification against it.

Modelling conventions:
* Go `int` / `int64` / `time.Duration` become `Int` (durations in
  nanoseconds, as in Go).
* Go channels become FIFO lists (`freeConn : List Int` holds connection
  ids, head = front of the channel); channel capacity checks are explicit.
* Pointer-mutated `COMConnection` records are identified by their `id`
  field; a mutation through a pointer becomes an update of every list
  entry carrying that id (ids are unique in every reachable state).
* The OLE/COM side effects (`oleutil.CallMethod`, worker initialization)
  are external collaborators; their outcomes enter the model as explicit
  oracle parameters (`initOK : Bool`, `backend : Except String ComVal`).
* `sync.Once` becomes the `closedOnce` flag; the ghost field `closeRuns`
  counts how many times the once-body actually executed (it appears in no
  guard, it only observes executions).
* Nondeterministic `select` outcomes in `GetConnection` are resolved by an
  explicit list of branch choices; theorems quantify over choices that are
  ready in Go (e.g. the free-channel case only when the channel is
  nonempty).
-/

namespace Gocom1c

/-! ## Configuration (`config.go`) -/

/-- Constants from `config.go` (the `Poop` misspelling is in the source). -/
def defMinPoopSize : Int := 1

def defMaxPoopSize : Int := 1

def defIdleTimeoutSec : Int := 5 * 60

def defComObject : String := "V83.COMConnector"

def defWaitConnTimeoutSec : Int := 10

def defCleanupIdleConnSec : Int := 60

def defConnCloseTimeout : Int := 30

/-- One second as a Go `time.Duration` (nanoseconds). -/
def goSecond : Int := 1000000000

/-- Structure `Config` from `config.go`; duration fields are nanosecond counts. -/
structure Config where
  ConnectionString : String
  CommandExec : String
  MaxPoolSize : Int
  MinPoolSize : Int
  IdleTimeout : Int
  COMObjectID : String
  WaitConnTimeout : Int
  CleanupIdleConn : Int
  ConnCloseTimeout : Int
  deriving Repr, DecidableEq

/-- Stage from config.go:29: when the maximum is nonpositive, default to 1. -/
def setDefMax (c : Config) : Config :=
  if c.MaxPoolSize ≤ 0 then { c with MaxPoolSize := defMaxPoopSize } else c

/-- Stage from config.go:32: when the minimum is strictly negative, default
to 1; a
configured minimum of `0` is left unchanged. -/
def setDefMin (c : Config) : Config :=
  if c.MinPoolSize < 0 then { c with MinPoolSize := defMinPoopSize } else c

/-- Stage from config.go:35: clamp the minimum down to the maximum. -/
def clampMinToMax (c : Config) : Config :=
  if c.MaxPoolSize < c.MinPoolSize then { c with MinPoolSize := c.MaxPoolSize } else c

/-- Stage from config.go:38: default `IdleTimeout`. -/
def setDefIdle (c : Config) : Config :=
  if c.IdleTimeout ≤ 0 then { c with IdleTimeout := defIdleTimeoutSec * goSecond } else c

/-- Stage from config.go:41: default `WaitConnTimeout`. -/
def setDefWait (c : Config) : Config :=
  if c.WaitConnTimeout ≤ 0 then { c with WaitConnTimeout := defWaitConnTimeoutSec * goSecond } else c

/-- Stage from config.go:44: default `CleanupIdleConn`. -/
def setDefSweep (c : Config) : Config :=
  if c.CleanupIdleConn ≤ 0 then { c with CleanupIdleConn := defCleanupIdleConnSec * goSecond } else c

/-- Stage from config.go:47: default `ConnCloseTimeout`. -/
def setDefClose (c : Config) : Config :=
  if c.ConnCloseTimeout ≤ 0 then { c with ConnCloseTimeout := defConnCloseTimeout * goSecond } else c

/-- Stage from config.go:50: default `COMObjectID`. -/
def setDefObj (c : Config) : Config :=
  if c.COMObjectID = "" then { c with COMObjectID := defComObject } else c

/-- Method `Config.SetDefaults` from `config.go`: the `if`s run in source order
(one stage per `if`), each one reading the fields as already updated by
the previous ones. -/
def Config.SetDefaults (cfg : Config) : Config :=
  setDefObj (setDefClose (setDefSweep (setDefWait (setDefIdle
    (clampMinToMax (setDefMin (setDefMax cfg)))))))

/-! ## Connection records (`conn.go`) -/

/-- Structure `COMConnection` from `conn.go`, restricted to the pool-visible fields.
The OLE handles (`v8`, `commandExecParent`, `commandExec`) are exclusively
owned by the worker and never inspected by the pool, so they are not part
of the state; `wg`, `quit` and `commands` are modelled by the worker-trace
semantics below. -/
structure COMConnection where
  id : Int
  lastUsed : Int
  useCount : Int
  busy : Bool
  deriving Repr, DecidableEq

/-! ## Pool state (`gocom1c.go`) -/

/-- Structure `COMPool` from `gocom1c.go`.  `freeConn` is the FIFO content of the
buffered channel (capacity `cfg.MaxPoolSize`), holding connection ids.
`closedOnce` models `closeOnce : sync.Once`; `closeRuns` is a ghost
counter of executed once-bodies. -/
structure COMPool where
  cfg : Config
  connections : List COMConnection
  freeConn : List Int
  shutdown : Bool
  closedOnce : Bool
  nextID : Int
  activeCount : Int
  closeRuns : Nat
  deriving Repr, DecidableEq

/-- The pool state built by `NewCOMPool` before `InitConnections` runs. -/
def newPoolState (cfg : Config) : COMPool :=
  { cfg := cfg, connections := [], freeConn := [], shutdown := false,
    closedOnce := false, nextID := 0, activeCount := 0, closeRuns := 0 }

/-- Look up the connection a channel pointer refers to, by id. -/
def findConn (connId : Int) : List COMConnection → Option COMConnection
  | [] => none
  | c :: cs => if c.id = connId then some c else findConn connId cs

/-- Mutation through a `*COMConnection` pointer: update the record with
the given id. -/
def updateConn (connId : Int) (f : COMConnection → COMConnection)
    (l : List COMConnection) : List COMConnection :=
  l.map fun c => if c.id = connId then f c else c

/-- Remove the first record with the given id (the `for ... break` loop in
`closeConnection`); `none` when no record matches. -/
def removeFirst (connId : Int) : List COMConnection → Option (List COMConnection)
  | [] => none
  | c :: cs =>
    if c.id = connId then some cs
    else (removeFirst connId cs).map (fun l => c :: l)

/-- Method `COMPool.closeConnection` (gocom1c.go:313): signal the worker to quit
and wait (out of model), then remove the record from the active slice and
decrement `activeCount` — both only when the record is found. -/
def closeConnection (connId : Int) (s : COMPool) : COMPool :=
  match removeFirst connId s.connections with
  | some cs => { s with connections := cs, activeCount := s.activeCount - 1 }
  | none => s

/-- Method `COMPool.createConnection` (gocom1c.go:269).  Runs entirely under
`createMutex` and `poolMutex`, hence one atomic step.  `initOK` is the
oracle for the worker's `ready` signal; `now` is `time.Now()`.  Returns
the new state and the error, if any.  Note `nextID` is consumed even when
initialization fails, exactly as in the source. -/
def createConnection (initOK : Bool) (now : Int) (s : COMPool) :
    COMPool × Option String :=
  if s.cfg.MaxPoolSize ≤ s.activeCount then
    (s, some "maximum pool size reached")
  else
    let conn : COMConnection :=
      { id := s.nextID, lastUsed := now, useCount := 0, busy := false }
    let s1 := { s with nextID := s.nextID + 1 }
    if initOK then
      let s2 := { s1 with connections := s1.connections ++ [conn],
                          activeCount := s1.activeCount + 1 }
      if s2.freeConn.length < s2.cfg.MaxPoolSize.toNat then
        ({ s2 with freeConn := s2.freeConn ++ [conn.id] }, none)
      else
        (s2, none)
    else
      (s1, some ("failed to initialize COM connection " ++ toString conn.id))

/-- The mutation `GetConnection` performs on a record taken from the free
channel: mark busy, stamp last-used, bump the use counter. -/
def markAcquired (now : Int) (c : COMConnection) : COMConnection :=
  { c with busy := true, lastUsed := now, useCount := c.useCount + 1 }

/-- The `conn := <-p.freeConn` case of `GetConnection` (gocom1c.go:225):
dequeue the front record, mark it acquired, return it.  `none` when the
channel is empty (the case is then not ready in Go's `select`). -/
def acquireFree (now : Int) (s : COMPool) : COMPool × Option COMConnection :=
  match s.freeConn with
  | [] => (s, none)
  | connId :: rest =>
    ({ s with freeConn := rest,
              connections := updateConn connId (markAcquired now) s.connections },
     (findConn connId s.connections).map (markAcquired now))

/-- One `select` outcome per recursion level of `GetConnection`. -/
inductive GetBranch
  | freeB
  | timeoutB (initOK : Bool)
  | shutdownB
  deriving Repr, DecidableEq

/-- Method `COMPool.GetConnection` (gocom1c.go:223).  The `select` outcome at
each level is picked by the head of `branches`; a branch that is not
ready in Go (free case on an empty channel, shutdown case with the
channel open) and an exhausted branch list return the artificial
`"stuck"` error, which no theorem relies on. -/
def GetConnection (now : Int) :
    List GetBranch → COMPool → COMPool × Except String COMConnection
  | [], s => (s, Except.error "stuck")
  | GetBranch.freeB :: _, s =>
    match acquireFree now s with
    | (s1, some conn) => (s1, Except.ok conn)
    | (s1, none) => (s1, Except.error "stuck")
  | GetBranch.timeoutB initOK :: bs, s =>
    if s.activeCount < s.cfg.MaxPoolSize then
      match createConnection initOK now s with
      | (s1, some e) =>
        (s1, Except.error ("failed to create new connection: " ++ e))
      | (s1, none) => GetConnection now bs s1
    else
      (s, Except.error "timeout waiting for COM connection")
  | GetBranch.shutdownB :: _, s =>
    if s.shutdown then (s, Except.error "pool is shutdown")
    else (s, Except.error "stuck")

/-- Method `COMPool.ReleaseConnection` (gocom1c.go:252): clear busy, stamp
last-used, then enqueue into the free channel, or — when the channel is
full — close the connection instead. -/
def ReleaseConnection (now : Int) (connId : Int) (s : COMPool) : COMPool :=
  let conns := updateConn connId (fun c => { c with busy := false, lastUsed := now }) s.connections
  let s1 := { s with connections := conns }
  if s1.freeConn.length < s1.cfg.MaxPoolSize.toNat then
    { s1 with freeConn := s1.freeConn ++ [connId] }
  else
    closeConnection connId s1

/-- Index of the first record with the given id: the search loop inside
`closeConnection` (gocom1c.go:331).  Its found index is also the
position at which the in-place removal shifts the backing array of the
connections slice. -/
def connFindIdx (connId : Int) : List COMConnection → Option Nat
  | [] => none
  | c :: cs =>
    if c.id = connId then some 0
    else (connFindIdx connId cs).map (fun j => j + 1)

/-- Effect of `append(s[:j], s[j+1:]...)` (gocom1c.go:333) on the
backing array of the connections slice, for a removal at index `j` of a
live slice of length `m` (the append shrinks, so it reuses the array):
cells `j+1 .. m-1` shift down one position, cell `m-1` keeps its old
value — a stale duplicate of the old last live record — and cells at
`m` and beyond are untouched.  The array length never changes. -/
def shiftRemove (arr : List COMConnection) (j m : Nat) : List COMConnection :=
  arr.take j ++ (arr.drop (j + 1)).take (m - j - 1) ++ arr.drop (m - 1)

/-- The scan loop of `COMPool.cleanup` (gocom1c.go:145).  Go's
`range p.connections` captures the slice header (base pointer and
length) once at loop entry, but each iteration reads `conn := arr[i]`
from the backing array as it currently stands, and `closeConnection`
shifts that array in place — so a removal makes the loop skip the
record that slid into the removed record's position and later visit the
stale duplicate left in the last live cell.  Here `arr` is that backing
array as record values (faithful because no field of any record is
mutated during a tick: the tick is one atomic section under
`poolMutex`, and removal does not write record fields), `k` the
remaining iterations of the loop over the captured length, `i` the
current position.  Body per visit: stop once `activeCount` is down to
`MinPoolSize`; for a non-busy record idle longer than `IdleTimeout`,
dequeue the front of the free channel — if it is that record, close it
(removing it from the live slice, which shifts the array at the found
index), otherwise put the dequeued record back at the tail. -/
def cleanupScan (now : Int) : Nat → Nat → List COMConnection → COMPool → COMPool
  | 0, _, _, s => s
  | Nat.succ k, i, arr, s =>
    match arr[i]? with
    | none => s
    | some c =>
      if s.activeCount ≤ s.cfg.MinPoolSize then s
      else if !c.busy && s.cfg.IdleTimeout < now - c.lastUsed then
        match s.freeConn with
        | [] => cleanupScan now k (i + 1) arr s
        | f :: fs =>
          if f = c.id then
            cleanupScan now k (i + 1)
              (match connFindIdx c.id s.connections with
               | some j => shiftRemove arr j s.connections.length
               | none => arr)
              (closeConnection c.id { s with freeConn := fs })
          else
            cleanupScan now k (i + 1) arr { s with freeConn := fs ++ [f] }
      else
        cleanupScan now k (i + 1) arr s

/-- Method `COMPool.cleanup` (gocom1c.go:136): a no-op when
`activeCount` is at or below the minimum, otherwise the position-based
idle scan above, over the slice header (array and length) captured at
loop entry. -/
def cleanup (now : Int) (s : COMPool) : COMPool :=
  if s.activeCount ≤ s.cfg.MinPoolSize then s
  else cleanupScan now s.connections.length 0 s.connections s

/-- Method `COMPool.CloseConnections` (gocom1c.go:115): close every worker (out
of model), then clear the slice and zero the counter. -/
def CloseConnections (s : COMPool) : COMPool :=
  { s with connections := [], activeCount := 0 }

/-- Method `COMPool.Close` (gocom1c.go:127): under `closeOnce`, close the
shutdown channel and tear all connections down; always returns `nil`. -/
def COMPool.Close (s : COMPool) : COMPool × Option String :=
  if s.closedOnce then (s, none)
  else
    ({ CloseConnections { s with shutdown := true } with
        closedOnce := true, closeRuns := s.closeRuns + 1 }, none)

/-- Loop body of `COMPool.InitConnections` (gocom1c.go:85): `k` creations left,
`i` the loop index feeding the per-creation `initOK` oracle. -/
def initLoop (oracle : Nat → Bool) (now : Int) :
    Nat → Nat → COMPool → COMPool × Option String
  | 0, _, s => (s, none)
  | Nat.succ k, i, s =>
    match createConnection (oracle i) now s with
    | (s1, some e) => (s1, some e)
    | (s1, none) => initLoop oracle now k (i + 1) s1

/-- Method `COMPool.InitConnections` (gocom1c.go:83): create `MinPoolSize`
connections, stopping at the first failure. -/
def InitConnections (oracle : Nat → Bool) (now : Int) (s : COMPool) :
    COMPool × Option String :=
  initLoop oracle now s.cfg.MinPoolSize.toNat 0 s

/-- Constructor `NewCOMPool` (gocom1c.go:33): normalize the configuration, populate
the minimum, and on failure call `Close` on the partial pool and return
the wrapped error (the caller then receives no pool).  The returned state
is the final internal state, post-`Close` on the failure path. -/
def NewCOMPool (cfg : Config) (oracle : Nat → Bool) (now : Int) :
    COMPool × Option String :=
  match InitConnections oracle now (newPoolState cfg.SetDefaults) with
  | (p1, some e) =>
    ((COMPool.Close p1).1, some ("failed to create initial connection: " ++ e))
  | (p1, none) => (p1, none)

/-! ## Worker and command protocol (`comWorker`, `COMConnection.ExecuteCommand`) -/

/-- The dynamic type of the value the backend call returns
(`res.Value()` in the closure of `COMConnection.ExecuteCommand`,
gocom1c.go:200): a string, a `fmt.Stringer`, or anything else (carried as
its `%v` rendering). -/
inductive ComVal
  | vstr (s : String)
  | vstringer (s : String)
  | vother (s : String)
  deriving Repr, DecidableEq

/-- The `switch` converting the backend value to a string
(gocom1c.go:202): strings pass through, `Stringer`s are rendered via
`String()`, everything else via `fmt.Sprintf`. -/
def comValToStr : ComVal → String
  | ComVal.vstr v => v
  | ComVal.vstringer v => v
  | ComVal.vother v => v

/-- Structure `Result` from gocom1c.go:27, as the closure builds it: either
`Result{Error: err}` or `Result{Value: strVal}`. -/
structure Result where
  value : Option String
  error : Option String
  deriving Repr, DecidableEq

/-- The list of `Result`s the closure of `COMConnection.ExecuteCommand`
(gocom1c.go:191) pushes onto the command's private result channel, as a
function of the backend call's outcome. -/
def commandClosure (backend : Except String ComVal) : List Result :=
  match backend with
  | Except.error e => [{ value := none, error := some e }]
  | Except.ok v => [{ value := some (comValToStr v), error := none }]

/-- The single `Result` of a command (`commandClosure` pushes exactly
this one, see `commandClosure_single` below). -/
def oneResult (backend : Except String ComVal) : Result :=
  match backend with
  | Except.error e => { value := none, error := some e }
  | Except.ok v => { value := some (comValToStr v), error := none }

/-- Method `COMConnection.ExecuteCommand` (gocom1c.go:188) after the worker ran
the closure: read the one result from the channel; an error result
yields `("", err)`, a success re-asserts the value as a string. -/
def connExecuteCommand (backend : Except String ComVal) : Except String String :=
  match (commandClosure backend).head? with
  | none => Except.error "stuck"
  | some r =>
    match r.error with
    | some e => Except.error e
    | none =>
      match r.value with
      | some v => Except.ok v
      | none => Except.error "interface conversion failed"

/-- What the worker's `select` loop can receive: a queued command (with
its backend outcome) or the `quit` signal. -/
inductive WorkerInput
  | cmd (backend : Except String ComVal)
  | quit
  deriving Repr

/-- Observable events of the worker loop: command `i` starts executing,
a `Result` for command `i` is pushed, command `i` finishes. -/
inductive WEvent
  | start (i : Nat)
  | emit (i : Nat) (r : Result)
  | finish (i : Nat)
  deriving Repr, DecidableEq

/-- The event trace of `COMConnection.comWorker`'s loop (part_009:182):
pull one command, run it to completion (which pushes its results), pull
the next; stop on `quit`, never touching later inputs.  `i` numbers the
commands in submission (channel FIFO) order. -/
def comWorkerLoop : Nat → List WorkerInput → List WEvent
  | _, [] => []
  | i, WorkerInput.cmd b :: rest =>
    WEvent.start i :: ((commandClosure b).map (WEvent.emit i) ++
      (WEvent.finish i :: comWorkerLoop (i + 1) rest))
  | _, WorkerInput.quit :: _ => []

/-- The commands the worker actually executes: the prefix of `cmd` inputs
before the first `quit`. -/
def executedCmds : List WorkerInput → List (Except String ComVal)
  | [] => []
  | WorkerInput.cmd b :: rest => b :: executedCmds rest
  | WorkerInput.quit :: _ => []

/-- Number of `start` events in a trace fragment. -/
def startCount (es : List WEvent) : Nat :=
  es.countP fun e => match e with | WEvent.start _ => true | _ => false

/-- Number of `finish` events in a trace fragment. -/
def finishCount (es : List WEvent) : Nat :=
  es.countP fun e => match e with | WEvent.finish _ => true | _ => false

/-- The indices of the `start` events of a trace, in order. -/
def startIndices (es : List WEvent) : List Nat :=
  es.filterMap fun e => match e with | WEvent.start i => some i | _ => none

/-- The `Result`s emitted for command `i`, in order. -/
def emitsFor (i : Nat) (es : List WEvent) : List Result :=
  es.filterMap fun e =>
    match e with
    | WEvent.emit j r => if j = i then some r else none
    | _ => none

/-! ## Pool `Execute` / `ExecuteCommand` (gocom1c.go:57,68) -/

/-- The dynamic type of the `any` value a function passed to
`COMPool.Execute` returns. -/
inductive GoVal
  | gstr (s : String)
  | gother (tag : String)
  deriving Repr, DecidableEq

/-- Method `COMPool.Execute` (gocom1c.go:57): acquire, and on success run the
function and — via `defer` — release, whatever the function returned.
`fnRes` is the outcome of the supplied function (its execution goes
through the acquired connection's worker and does not touch pool state);
`nowR` is `time.Now()` at release time. -/
def COMPool.Execute (branches : List GetBranch) (now nowR : Int)
    (fnRes : Except String GoVal) (s : COMPool) :
    COMPool × Except String GoVal :=
  match GetConnection now branches s with
  | (s1, Except.error e) => (s1, Except.error e)
  | (s1, Except.ok conn) => (ReleaseConnection nowR conn.id s1, fnRes)

/-- A Go byte slice: `none` is the `nil` slice, `some str` is
`[]byte(str)` (so `some ""` is the non-nil empty slice `[]byte\x7b\x7d`). -/
abbrev GoBytes := Option String

/-- Method `COMPool.ExecuteCommand` (gocom1c.go:68): run through `Execute`;
any error yields the empty (non-nil) byte slice and the error; a
non-string result yields the conversion error; otherwise the string's
bytes and no error. -/
def COMPool.ExecuteCommand (branches : List GetBranch) (now nowR : Int)
    (fnRes : Except String GoVal) (s : COMPool) :
    COMPool × GoBytes × Option String :=
  match COMPool.Execute branches now nowR fnRes s with
  | (s1, Except.error e) => (s1, some "", some e)
  | (s1, Except.ok (GoVal.gstr str)) => (s1, some str, none)
  | (s1, Except.ok (GoVal.gother _)) =>
    (s1, some "", some "result can not be converted to string")

/-! ## Interleaving trace model

Concurrent callers interleave the pool's atomic sections.  Each
`PAction` is one such section: `createConnection` runs under
`createMutex` + `poolMutex`; `cleanup` and `CloseConnections`/`Close`
run under `poolMutex`; the free-channel operations are atomic channel
operations combined with the per-record mutex section that immediately
follows them (the intermediate states they would expose neither put a
record into the channel nor mark one busy, so the invariants below are
unaffected by the fusion). -/

/-- One atomic step a concurrent caller can take against the pool. -/
inductive PAction
  | createA (initOK : Bool) (now : Int)
  | acquireA (now : Int)
  | releaseA (connId : Int) (now : Int)
  | cleanA (now : Int)
  | closeA
  deriving Repr, DecidableEq

/-- State effect of one atomic step. -/
def step : PAction → COMPool → COMPool
  | PAction.createA initOK now, s => (createConnection initOK now s).1
  | PAction.acquireA now, s => (acquireFree now s).1
  | PAction.releaseA connId now, s => ReleaseConnection now connId s
  | PAction.cleanA now, s => cleanup now s
  | PAction.closeA, s => (COMPool.Close s).1

/-- Protocol validity of a step: an acquire only fires when the free
channel is ready, and callers only release connections they hold (a
record that exists and is marked busy). -/
def validAction (s : COMPool) (a : PAction) : Bool :=
  match a with
  | PAction.acquireA _ => !s.freeConn.isEmpty
  | PAction.releaseA connId _ =>
    s.connections.any fun c => c.id = connId && c.busy
  | _ => true

/-- Run a sequence of atomic steps. -/
def run (s : COMPool) : List PAction → COMPool
  | [] => s
  | a :: as => run (step a s) as

/-- A protocol-valid interleaving. -/
def validTrace (s : COMPool) : List PAction → Bool
  | [] => true
  | a :: as => validAction s a && validTrace (step a s) as

/-- The pool invariant, preserved by every valid atomic step:
bookkeeping (`activeCount` counts the active slice, and stays within the
maximum), free-channel sanity (no duplicates, within capacity, only
already-issued ids), the free/busy exclusion, and id uniqueness. -/
def Inv (s : COMPool) : Prop :=
  0 ≤ s.cfg.MaxPoolSize
  ∧ s.activeCount = (s.connections.length : Int)
  ∧ s.activeCount ≤ s.cfg.MaxPoolSize
  ∧ s.freeConn.Nodup
  ∧ s.freeConn.length ≤ s.cfg.MaxPoolSize.toNat
  ∧ (∀ i ∈ s.freeConn, i < s.nextID)
  ∧ (∀ c ∈ s.connections, c.id ∈ s.freeConn → c.busy = false)
  ∧ (s.connections.map (fun c => c.id)).Nodup
  ∧ (∀ c ∈ s.connections, c.id < s.nextID)

instance (s : COMPool) : Decidable (Inv s) := by
  unfold Inv; infer_instance

/-! ## Concrete states used to instantiate the theorems -/

/-- A small already-normalized configuration. -/
def cfgW : Config :=
  { ConnectionString := "cs", CommandExec := "WebAPI", MaxPoolSize := 2,
    MinPoolSize := 1, IdleTimeout := 1000, COMObjectID := "V83.COMConnector",
    WaitConnTimeout := 1000, CleanupIdleConn := 1000, ConnCloseTimeout := 1000 }

/-- One idle connection record. -/
def connW : COMConnection := { id := 0, lastUsed := 0, useCount := 0, busy := false }

/-- A pool holding one idle connection. -/
def poolW : COMPool :=
  { cfg := cfgW, connections := [connW], freeConn := [0], shutdown := false,
    closedOnce := false, nextID := 1, activeCount := 1, closeRuns := 0 }

/-- An empty pool (no connections yet). -/
def poolEmptyW : COMPool :=
  { cfg := cfgW, connections := [], freeConn := [], shutdown := false,
    closedOnce := false, nextID := 0, activeCount := 0, closeRuns := 0 }

/-- The configuration of the spec's reaper scenario: `MinPoolSize = 0`,
`MaxPoolSize = 3`, `IdleTimeout` 10ms, sweep every 5ms (durations in
nanoseconds). -/
def cfg9 : Config :=
  { ConnectionString := "", CommandExec := "", MaxPoolSize := 3,
    MinPoolSize := 0, IdleTimeout := 10000000, COMObjectID := "",
    WaitConnTimeout := 50000000, CleanupIdleConn := 5000000,
    ConnCloseTimeout := 1000000000 }

/-- An idle connection last used at time 0. -/
def conn9 (i : Int) : COMConnection :=
  { id := i, lastUsed := 0, useCount := 1, busy := false }

/-- The scenario pool: three connections, all idle since time 0, all in
the free channel. -/
def pool9 : COMPool :=
  { cfg := Config.SetDefaults cfg9, connections := [conn9 0, conn9 1, conn9 2],
    freeConn := [0, 1, 2], shutdown := false, closedOnce := false,
    nextID := 3, activeCount := 3, closeRuns := 0 }

/-- 20ms after time 0: past the 10ms idle timeout. -/
def now9 : Int := 20000000

/-- The state after a successful on-demand creation out of a state with
an empty free channel: id issued, record appended, counter bumped, the
new record enqueued on the free channel. -/
def grownPool (now : Int) (s : COMPool) : COMPool :=
  { s with nextID := s.nextID + 1,
           connections := s.connections ++
             [{ id := s.nextID, lastUsed := now, useCount := 0, busy := false }],
           activeCount := s.activeCount + 1,
           freeConn := [s.nextID] }

/-- The state after the post-growth retry dequeued and acquired the new
record. -/
def grownAcquired (now : Int) (s : COMPool) : COMPool :=
  { grownPool now s with
      freeConn := [],
      connections := updateConn s.nextID (markAcquired now) (grownPool now s).connections }

/-! ## Helper lemmas -/

theorem closeConnection_cfg (connId : Int) (s : COMPool) :
    (closeConnection connId s).cfg = s.cfg := by
  unfold closeConnection
  cases removeFirst connId s.connections <;> rfl

theorem closeConnection_active (connId : Int) (s : COMPool) :
    s.activeCount - 1 ≤ (closeConnection connId s).activeCount
    ∧ (closeConnection connId s).activeCount ≤ s.activeCount := by
  unfold closeConnection
  cases removeFirst connId s.connections <;> dsimp only <;> omega

theorem cleanupScan_cfg (now : Int) :
    ∀ (k i : Nat) (arr : List COMConnection) (s : COMPool),
      (cleanupScan now k i arr s).cfg = s.cfg := by
  intro k
  induction k with
  | zero => intro i arr s; rfl
  | succ k ih =>
    intro i arr s
    unfold cleanupScan
    split
    · rfl
    · split
      · rfl
      · split
        · split
          · exact ih _ _ s
          · split
            · rw [ih, closeConnection_cfg]
            · exact ih _ _ _
        · exact ih _ _ s

theorem cleanupScan_min (now : Int) :
    ∀ (k i : Nat) (arr : List COMConnection) (s : COMPool),
      min s.cfg.MinPoolSize s.activeCount ≤ (cleanupScan now k i arr s).activeCount := by
  intro k
  induction k with
  | zero => intro i arr s; exact min_le_right _ _
  | succ k ih =>
    intro i arr s
    unfold cleanupScan
    split
    · exact min_le_right _ _
    · rename_i c harr
      split
      · exact min_le_right _ _
      · rename_i hgt
        split
        · split
          · exact ih _ _ s
          · rename_i f fs hfree
            split
            · refine le_trans ?_
                (ih (i + 1) _ (closeConnection c.id { s with freeConn := fs }))
              have hc := closeConnection_cfg c.id { s with freeConn := fs }
              have ha := closeConnection_active c.id { s with freeConn := fs }
              rw [hc]
              simp only at ha ⊢
              omega
            · have hih := ih (i + 1) arr { s with freeConn := fs ++ [f] }
              simpa using hih
        · exact ih _ _ s

/-! ## C6: the Idle Reaper respects the minimum -/

/-- C6: `cleanup` never reduces `activeCount` below `MinPoolSize`: it is
a no-op when `activeCount ≤ MinPoolSize` at the start of a tick, and the
scan stops closing records as soon as `activeCount` reaches
`MinPoolSize`, so the result stays at or above
`min MinPoolSize activeCount` — in particular at or above `MinPoolSize`
whenever the tick started at or above it. -/
theorem cleanup_respects_min (now : Int) (s : COMPool) :
    (s.activeCount ≤ s.cfg.MinPoolSize → cleanup now s = s)
    ∧ min s.cfg.MinPoolSize s.activeCount ≤ (cleanup now s).activeCount
    ∧ (s.cfg.MinPoolSize ≤ s.activeCount →
        s.cfg.MinPoolSize ≤ (cleanup now s).activeCount) := by
  unfold cleanup
  split
  · rename_i hle
    exact ⟨fun _ => rfl, min_le_right _ _, fun hge => hge⟩
  · rename_i hgt
    refine ⟨fun h => absurd h hgt, cleanupScan_min now _ 0 _ s, fun hge => ?_⟩
    have h := cleanupScan_min now s.connections.length 0 s.connections s
    omega

/-- Witness for C6 on the one-connection pool. -/
theorem cleanup_respects_min_applied :
    poolW.activeCount ≤ poolW.cfg.MinPoolSize ∧ cleanup 5 poolW = poolW := by
  have h := cleanup_respects_min 5 poolW
  exact ⟨by decide, h.1 (by decide)⟩

/-! ## C7: `Close` is idempotent -/

/-- C7: `Close` never returns an error; a second `Close` (sequential
composition of the `sync.Once`-guarded body) leaves the state unchanged
and again returns no error; and when the pool was not yet closed, the
first call fires the shutdown signal, clears the connection list, zeroes
`activeCount`, and the teardown body runs exactly once across both calls
(ghost counter `closeRuns`). -/
theorem Close_idempotent (s : COMPool) :
    (COMPool.Close s).2 = none
    ∧ COMPool.Close (COMPool.Close s).1 = ((COMPool.Close s).1, none)
    ∧ (s.closedOnce = false →
        (COMPool.Close s).1.shutdown = true
        ∧ (COMPool.Close s).1.connections = []
        ∧ (COMPool.Close s).1.activeCount = 0
        ∧ (COMPool.Close s).1.closeRuns = s.closeRuns + 1
        ∧ (COMPool.Close (COMPool.Close s).1).1.closeRuns = s.closeRuns + 1) := by
  by_cases h : s.closedOnce
  · simp [COMPool.Close, CloseConnections, h]
  · simp [COMPool.Close, CloseConnections, h]

/-- Witness for C7 on a not-yet-closed pool. -/
theorem Close_idempotent_applied :
    poolW.closedOnce = false
    ∧ (COMPool.Close poolW).1.connections = []
    ∧ (COMPool.Close poolW).1.closeRuns = poolW.closeRuns + 1 := by
  have h := (Close_idempotent poolW).2.2 (by decide)
  exact ⟨by decide, h.2.1, h.2.2.2.1⟩

/-! ## C9: `MinPoolSize = 0` is not clamped to 1 -/

/-- C9 counterexample: `SetDefaults` leaves a configured minimum pool
size of `0` unchanged — the guard in `config.go` is strict
(`MinPoolSize < 0`) — so the claimed clamping to 1 does not happen, and
on the scenario pool (3 resources, all idle beyond `IdleTimeout`)
repeated reaper ticks remove all three resources, not two: none remains
instead of the claimed one. -/
theorem setDefaults_min_zero_counterexample :
    (Config.SetDefaults cfg9).MinPoolSize = 0
    ∧ ¬ (Config.SetDefaults cfg9).MinPoolSize = 1
    ∧ (cleanup now9 (cleanup now9 (cleanup now9 pool9))).activeCount = 0
    ∧ ¬ (cleanup now9 (cleanup now9 (cleanup now9 pool9))).activeCount = 1 := by
  decide

/-- C9 amended: a configured minimum of `0` is kept by `SetDefaults`
(only a negative minimum defaults to 1), so the reaper's floor on the
scenario pool (`MinPoolSize = 0`, `MaxPoolSize = 3`, three resources
idle beyond `IdleTimeout`) is zero, not one.  A single tick removes only
two of the three — closing a record shifts the backing array in place
under the `range` loop, so the record that slides into the closed
record's position is skipped — and the next tick removes the survivor:
after the scenario's 20ms wait (several 5ms ticks) no resource remains,
not one. -/
theorem setDefaults_min_zero_amended :
    (Config.SetDefaults cfg9).MinPoolSize = 0
    ∧ (cleanup now9 pool9).activeCount = 1
    ∧ (cleanup now9 pool9).connections = [conn9 1]
    ∧ (cleanup now9 (cleanup now9 pool9)).activeCount = 0
    ∧ (cleanup now9 (cleanup now9 pool9)).connections = [] := by
  decide

/-! ## Helper lemmas about `removeFirst` and `updateConn` -/

theorem removeFirst_sublist (connId : Int) :
    ∀ (l l' : List COMConnection), removeFirst connId l = some l' → l'.Sublist l := by
  intro l
  induction l with
  | nil => intro l' h; simp [removeFirst] at h
  | cons c cs ih =>
    intro l' h
    unfold removeFirst at h
    split at h
    · cases h
      exact List.sublist_cons_self c cs
    · cases hm : removeFirst connId cs with
      | none => rw [hm] at h; simp at h
      | some l2 =>
        rw [hm] at h
        simp only [Option.map_some', Option.some.injEq] at h
        cases h
        exact (ih l2 hm).cons₂ c

theorem removeFirst_length (connId : Int) :
    ∀ (l l' : List COMConnection), removeFirst connId l = some l' →
      l'.length + 1 = l.length := by
  intro l
  induction l with
  | nil => intro l' h; simp [removeFirst] at h
  | cons c cs ih =>
    intro l' h
    unfold removeFirst at h
    split at h
    · cases h; rfl
    · cases hm : removeFirst connId cs with
      | none => rw [hm] at h; simp at h
      | some l2 =>
        rw [hm] at h
        simp only [Option.map_some', Option.some.injEq] at h
        cases h
        simp [← ih l2 hm]

theorem mem_of_mem_removeFirst {connId : Int} {l l' : List COMConnection}
    {c : COMConnection} (h : removeFirst connId l = some l') (hc : c ∈ l') :
    c ∈ l :=
  (removeFirst_sublist connId l l' h).mem hc

/-- A record carrying the released id is not busy after the
busy-clearing update of `ReleaseConnection`. -/
theorem updateConn_clear_busy (now connId : Int) (l : List COMConnection) :
    ∀ c ∈ updateConn connId (fun c => { c with busy := false, lastUsed := now }) l,
      c.id = connId → c.busy = false := by
  intro c hc hid
  unfold updateConn at hc
  obtain ⟨c0, hc0, heq⟩ := List.mem_map.mp hc
  by_cases h0 : c0.id = connId
  · simp only [h0, if_pos] at heq
    rw [← heq]
  · simp only [h0, if_neg, not_false_iff] at heq
    rw [← heq] at hid
    exact absurd hid h0

/-- After `ReleaseConnection`, no record with the released id is busy
(on the channel-full path the first such record is closed and removed,
any duplicate was already cleared). -/
theorem release_not_busy (now connId : Int) (s : COMPool) :
    ∀ c ∈ (ReleaseConnection now connId s).connections,
      c.id = connId → c.busy = false := by
  intro c hc hid
  unfold ReleaseConnection at hc
  dsimp only at hc
  split at hc
  · exact updateConn_clear_busy now connId s.connections c hc hid
  · unfold closeConnection at hc
    dsimp only at hc
    rcases hm : removeFirst connId (updateConn connId
        (fun c => { c with busy := false, lastUsed := now }) s.connections) with _ | cs
    · rw [hm] at hc
      exact updateConn_clear_busy now connId s.connections c hc hid
    · rw [hm] at hc
      dsimp only at hc
      exact updateConn_clear_busy now connId s.connections c
        (mem_of_mem_removeFirst hm hc) hid

/-! ## C4: `ExecuteCommand` always releases the acquired resource -/

/-- C4: whenever acquisition succeeds, `Execute` — and hence the pool's
`ExecuteCommand` — applies `ReleaseConnection` to the acquired record on
every return path (deferred release), whatever the command outcome
`fnRes` was (backend error, non-string result, or success); afterwards
no record with the acquired id is left marked busy. -/
theorem Execute_always_releases (branches : List GetBranch) (now nowR : Int)
    (fnRes : Except String GoVal) (s s1 : COMPool) (conn : COMConnection)
    (h : GetConnection now branches s = (s1, Except.ok conn)) :
    (COMPool.Execute branches now nowR fnRes s).1 = ReleaseConnection nowR conn.id s1
    ∧ (COMPool.Execute branches now nowR fnRes s).2 = fnRes
    ∧ (COMPool.ExecuteCommand branches now nowR fnRes s).1 = ReleaseConnection nowR conn.id s1
    ∧ (∀ c ∈ (COMPool.ExecuteCommand branches now nowR fnRes s).1.connections,
        c.id = conn.id → c.busy = false) := by
  unfold COMPool.ExecuteCommand COMPool.Execute
  rw [h]
  rcases fnRes with e | v
  · simpa using fun c hc => release_not_busy nowR conn.id s1 c hc
  · rcases v with str | tag <;>
      simpa using fun c hc => release_not_busy nowR conn.id s1 c hc

/-- Witness for C4: on the one-connection pool, after a successful
command the concrete released record sits in the pool and is not busy. -/
theorem Execute_always_releases_applied :
    ({ id := 0, lastUsed := 6, useCount := 1, busy := false } : COMConnection)
      ∈ (COMPool.ExecuteCommand [GetBranch.freeB] 5 6 (Except.ok (GoVal.gstr "r")) poolW).1.connections
    ∧ ({ id := 0, lastUsed := 6, useCount := 1, busy := false } : COMConnection).busy = false := by
  refine ⟨by decide, ?_⟩
  exact (Execute_always_releases [GetBranch.freeB] 5 6 (Except.ok (GoVal.gstr "r")) poolW
    { poolW with freeConn := [], connections := updateConn 0 (markAcquired 5) poolW.connections }
    (markAcquired 5 connW) rfl).2.2.2
    { id := 0, lastUsed := 6, useCount := 1, busy := false } (by decide) rfl

/-! ## C10: failure paths of the pool's `ExecuteCommand` -/

/-- C10: the byte slice returned by the pool's `ExecuteCommand` is never
the `nil` slice; on every failure path (acquisition failure, backend
execution error, or a non-string result) it is exactly the empty slice
`[]byte\x7b\x7d` together with a non-`nil` error; a payload other than the
empty slice is returned only when the error is `nil`, and a `nil` error
implies the command returned a string whose bytes are the payload. -/
theorem ExecuteCommand_failure_shape (branches : List GetBranch)
    (now nowR : Int) (fnRes : Except String GoVal) (s : COMPool) :
    ((COMPool.ExecuteCommand branches now nowR fnRes s).2.1 ≠ none)
    ∧ ((COMPool.ExecuteCommand branches now nowR fnRes s).2.2 ≠ none →
        (COMPool.ExecuteCommand branches now nowR fnRes s).2.1 = some "")
    ∧ ((COMPool.ExecuteCommand branches now nowR fnRes s).2.1 ≠ some "" →
        (COMPool.ExecuteCommand branches now nowR fnRes s).2.2 = none)
    ∧ ((COMPool.ExecuteCommand branches now nowR fnRes s).2.2 = none →
        ∃ str, fnRes = Except.ok (GoVal.gstr str)
          ∧ (COMPool.ExecuteCommand branches now nowR fnRes s).2.1 = some str) := by
  unfold COMPool.ExecuteCommand COMPool.Execute
  rcases h : GetConnection now branches s with ⟨s1, r⟩
  rcases r with e | conn
  · simp
  · rcases fnRes with e | v
    · simp
    · rcases v with str | tag <;> simp

/-- Witness for C10: acquiring on a shut-down pool fails, and the byte
slice is the empty (non-nil) slice with a non-nil error. -/
theorem ExecuteCommand_failure_shape_applied :
    (COMPool.ExecuteCommand [GetBranch.shutdownB] 5 6
        (Except.ok (GoVal.gstr "r")) { poolEmptyW with shutdown := true }).2.1 = some "" := by
  exact (ExecuteCommand_failure_shape [GetBranch.shutdownB] 5 6
      (Except.ok (GoVal.gstr "r")) { poolEmptyW with shutdown := true }).2.1
    (by decide)

/-! ## C3: the `GetConnection` contract -/

theorem findConn_append_new (connId : Int) (conn : COMConnection)
    (l : List COMConnection) (hne : ∀ c ∈ l, c.id ≠ connId)
    (hid : conn.id = connId) :
    findConn connId (l ++ [conn]) = some conn := by
  induction l with
  | nil => simp [findConn, hid]
  | cons c cs ih =>
    have hc := hne c (by simp)
    unfold findConn
    simp only [List.cons_append]
    rw [if_neg hc]
    exact ih fun c' hc' => hne c' (by simp [hc'])

theorem createConnection_grow (now : Int) (s : COMPool)
    (hfree : s.freeConn = []) (hlt : s.activeCount < s.cfg.MaxPoolSize)
    (hnn : 0 ≤ s.activeCount) :
    createConnection true now s = (grownPool now s, none) := by
  unfold createConnection
  rw [if_neg (by omega)]
  dsimp only [if_true]
  simp [grownPool, hfree]
  omega

/-- C3: the acquisition contract of `GetConnection`.
(a) With a free record at the front of the registry, the free branch
dequeues it, marks it busy, stamps `lastUsed`, increments `useCount`,
and returns it.
(b) On wait timeout with the pool at `MaxPoolSize`, it fails with the
timeout error and changes nothing.
(c) On wait timeout below `MaxPoolSize` (registry empty), it
synchronously creates one connection and the retry returns that new
record, marked busy with `useCount = 1`.
(d) When the shutdown signal has fired, it fails immediately with the
shutdown error and changes nothing. -/
theorem GetConnection_contract (s : COMPool) (now : Int) :
    (∀ connId rest c, s.freeConn = connId :: rest →
      findConn connId s.connections = some c →
      GetConnection now [GetBranch.freeB] s =
        ({ s with freeConn := rest,
                  connections := updateConn connId (markAcquired now) s.connections },
         Except.ok (markAcquired now c))
      ∧ (markAcquired now c).busy = true
      ∧ (markAcquired now c).lastUsed = now
      ∧ (markAcquired now c).useCount = c.useCount + 1)
    ∧ (∀ initOK, s.cfg.MaxPoolSize ≤ s.activeCount →
        GetConnection now [GetBranch.timeoutB initOK] s =
          (s, Except.error "timeout waiting for COM connection"))
    ∧ (s.freeConn = [] → s.activeCount < s.cfg.MaxPoolSize →
        0 ≤ s.activeCount → (∀ c ∈ s.connections, c.id ≠ s.nextID) →
        ∃ s4 c, GetConnection now [GetBranch.timeoutB true, GetBranch.freeB] s
            = (s4, Except.ok c)
          ∧ c.id = s.nextID ∧ c.busy = true ∧ c.lastUsed = now
          ∧ c.useCount = 1 ∧ c ∈ s4.connections)
    ∧ (s.shutdown = true →
        GetConnection now [GetBranch.shutdownB] s =
          (s, Except.error "pool is shutdown")) := by
  refine ⟨?_, ?_, ?_, ?_⟩
  · intro connId rest c hfree hfind
    refine ⟨?_, rfl, rfl, rfl⟩
    unfold GetConnection acquireFree
    rw [hfree]
    dsimp only
    rw [hfind]
    rfl
  · intro initOK hge
    unfold GetConnection
    rw [if_neg (by omega)]
  · intro hfree hlt hnn hids
    have hcreate := createConnection_grow now s hfree hlt hnn
    have hfind : findConn s.nextID (grownPool now s).connections =
        some { id := s.nextID, lastUsed := now, useCount := 0, busy := false } := by
      unfold grownPool
      exact findConn_append_new s.nextID _ s.connections hids rfl
    refine ⟨grownAcquired now s,
      markAcquired now { id := s.nextID, lastUsed := now, useCount := 0, busy := false },
      ?_, rfl, rfl, rfl, rfl, ?_⟩
    · show GetConnection now [GetBranch.timeoutB true, GetBranch.freeB] s = _
      unfold GetConnection
      rw [if_pos hlt, hcreate]
      dsimp only
      unfold GetConnection acquireFree
      have hgf : (grownPool now s).freeConn = [s.nextID] := rfl
      rw [hgf]
      dsimp only
      rw [hfind]
      rfl
    · unfold grownAcquired updateConn grownPool
      refine List.mem_map.mpr ⟨{ id := s.nextID, lastUsed := now, useCount := 0, busy := false }, ?_, ?_⟩
      · simp
      · simp [markAcquired]
  · intro hsd
    unfold GetConnection
    rw [if_pos hsd]

/-- Witness for C3: growing an empty pool on timeout and retrying
returns the newly created connection, busy with `useCount = 1`. -/
theorem GetConnection_contract_applied :
    ∃ s4 c, GetConnection 5 [GetBranch.timeoutB true, GetBranch.freeB] poolEmptyW
        = (s4, Except.ok c)
      ∧ c.id = poolEmptyW.nextID ∧ c.busy = true ∧ c.lastUsed = 5
      ∧ c.useCount = 1 ∧ c ∈ s4.connections :=
  (GetConnection_contract poolEmptyW 5).2.2.1 (by decide) (by decide) (by decide)
    (by intro c hc; simp [poolEmptyW] at hc)

/-! ## C8: construction creates the minimum and fails fast -/

theorem setDefObj_sizes (c : Config) :
    (setDefObj c).MaxPoolSize = c.MaxPoolSize
    ∧ (setDefObj c).MinPoolSize = c.MinPoolSize := by
  unfold setDefObj; split <;> exact ⟨rfl, rfl⟩

theorem setDefClose_sizes (c : Config) :
    (setDefClose c).MaxPoolSize = c.MaxPoolSize
    ∧ (setDefClose c).MinPoolSize = c.MinPoolSize := by
  unfold setDefClose; split <;> exact ⟨rfl, rfl⟩

theorem setDefSweep_sizes (c : Config) :
    (setDefSweep c).MaxPoolSize = c.MaxPoolSize
    ∧ (setDefSweep c).MinPoolSize = c.MinPoolSize := by
  unfold setDefSweep; split <;> exact ⟨rfl, rfl⟩

theorem setDefWait_sizes (c : Config) :
    (setDefWait c).MaxPoolSize = c.MaxPoolSize
    ∧ (setDefWait c).MinPoolSize = c.MinPoolSize := by
  unfold setDefWait; split <;> exact ⟨rfl, rfl⟩

theorem setDefIdle_sizes (c : Config) :
    (setDefIdle c).MaxPoolSize = c.MaxPoolSize
    ∧ (setDefIdle c).MinPoolSize = c.MinPoolSize := by
  unfold setDefIdle; split <;> exact ⟨rfl, rfl⟩

theorem clampMinToMax_bounds (c : Config)
    (hmax : 1 ≤ c.MaxPoolSize) (hmin : 0 ≤ c.MinPoolSize) :
    1 ≤ (clampMinToMax c).MaxPoolSize
    ∧ 0 ≤ (clampMinToMax c).MinPoolSize
    ∧ (clampMinToMax c).MinPoolSize ≤ (clampMinToMax c).MaxPoolSize := by
  unfold clampMinToMax
  split <;> (try dsimp only) <;> omega

theorem setDefMin_bounds (c : Config) :
    0 ≤ (setDefMin c).MinPoolSize
    ∧ (setDefMin c).MaxPoolSize = c.MaxPoolSize := by
  unfold setDefMin
  split <;> (try dsimp only) <;> first | exact ⟨by simp [defMinPoopSize], rfl⟩ | exact ⟨by omega, rfl⟩

theorem setDefMax_bounds (c : Config) :
    1 ≤ (setDefMax c).MaxPoolSize
    ∧ (setDefMax c).MinPoolSize = c.MinPoolSize := by
  unfold setDefMax
  split <;> (try dsimp only) <;> first | exact ⟨by simp [defMaxPoopSize], rfl⟩ | exact ⟨by omega, rfl⟩

theorem SetDefaults_bounds (cfg : Config) :
    1 ≤ (Config.SetDefaults cfg).MaxPoolSize
    ∧ 0 ≤ (Config.SetDefaults cfg).MinPoolSize
    ∧ (Config.SetDefaults cfg).MinPoolSize ≤ (Config.SetDefaults cfg).MaxPoolSize := by
  unfold Config.SetDefaults
  obtain ⟨h1max, h1min⟩ := setDefMax_bounds cfg
  obtain ⟨h2min, h2max⟩ := setDefMin_bounds (setDefMax cfg)
  have hcl := clampMinToMax_bounds (setDefMin (setDefMax cfg)) (by omega) h2min
  obtain ⟨h4max, h4min⟩ := setDefIdle_sizes (clampMinToMax (setDefMin (setDefMax cfg)))
  obtain ⟨h5max, h5min⟩ := setDefWait_sizes (setDefIdle (clampMinToMax (setDefMin (setDefMax cfg))))
  obtain ⟨h6max, h6min⟩ := setDefSweep_sizes (setDefWait (setDefIdle (clampMinToMax (setDefMin (setDefMax cfg)))))
  obtain ⟨h7max, h7min⟩ := setDefClose_sizes (setDefSweep (setDefWait (setDefIdle (clampMinToMax (setDefMin (setDefMax cfg))))))
  obtain ⟨h8max, h8min⟩ := setDefObj_sizes (setDefClose (setDefSweep (setDefWait (setDefIdle (clampMinToMax (setDefMin (setDefMax cfg)))))))
  rw [h8max, h8min, h7max, h7min, h6max, h6min, h5max, h5min, h4max, h4min]
  exact hcl

theorem createConnection_false_err (now : Int) (s : COMPool) :
    (createConnection false now s).2 ≠ none := by
  unfold createConnection
  split <;> simp

theorem createConnection_closedOnce (initOK : Bool) (now : Int) (s : COMPool) :
    (createConnection initOK now s).1.closedOnce = s.closedOnce := by
  unfold createConnection
  split
  · rfl
  · dsimp only
    split_ifs <;> rfl

theorem createConnection_true_counts (now : Int) (s : COMPool)
    (h : s.activeCount < s.cfg.MaxPoolSize) :
    (createConnection true now s).2 = none
    ∧ (createConnection true now s).1.activeCount = s.activeCount + 1
    ∧ (createConnection true now s).1.connections.length = s.connections.length + 1
    ∧ (createConnection true now s).1.cfg = s.cfg := by
  unfold createConnection
  rw [if_neg (by omega)]
  dsimp only
  split_ifs <;> simp_all

theorem initLoop_closedOnce (oracle : Nat → Bool) (now : Int) :
    ∀ (k i : Nat) (s : COMPool),
      (initLoop oracle now k i s).1.closedOnce = s.closedOnce := by
  intro k
  induction k with
  | zero => intro i s; rfl
  | succ k ih =>
    intro i s
    unfold initLoop
    rcases hcc : createConnection (oracle i) now s with ⟨s1, e⟩
    have h1 : s1.closedOnce = s.closedOnce := by
      have := createConnection_closedOnce (oracle i) now s
      rw [hcc] at this
      exact this
    cases e with
    | some e => exact h1
    | none => dsimp only; rw [ih (i + 1) s1, h1]

theorem initLoop_success (oracle : Nat → Bool) (now : Int) :
    ∀ (k i : Nat) (s : COMPool),
      (∀ j, j < k → oracle (i + j) = true) →
      s.activeCount + (k : Int) ≤ s.cfg.MaxPoolSize →
      (initLoop oracle now k i s).2 = none
      ∧ (initLoop oracle now k i s).1.activeCount = s.activeCount + k
      ∧ (initLoop oracle now k i s).1.connections.length = s.connections.length + k := by
  intro k
  induction k with
  | zero => intro i s _ _; exact ⟨rfl, by simp [initLoop], by simp [initLoop]⟩
  | succ k ih =>
    intro i s h hcap
    have h0 : oracle i = true := by simpa using h 0 (by omega)
    have hlt : s.activeCount < s.cfg.MaxPoolSize := by push_cast at hcap; omega
    have hc := createConnection_true_counts now s hlt
    unfold initLoop
    rw [h0]
    rcases hcc : createConnection true now s with ⟨s1, e⟩
    rw [hcc] at hc
    dsimp only at hc
    obtain ⟨he, hact, hlen, hcfg⟩ := hc
    subst he
    dsimp only
    have hrec := ih (i + 1) s1
      (fun j hj => by
        have := h (j + 1) (by omega)
        simpa [Nat.add_assoc, Nat.add_comm 1 j] using this)
      (by rw [hact, hcfg]; push_cast at hcap ⊢; omega)
    refine ⟨hrec.1, ?_, ?_⟩
    · rw [hrec.2.1, hact]; push_cast; ring
    · rw [hrec.2.2, hlen]; omega

theorem initLoop_all_true_of_none (oracle : Nat → Bool) (now : Int) :
    ∀ (k i : Nat) (s : COMPool),
      (initLoop oracle now k i s).2 = none → ∀ j, j < k → oracle (i + j) = true := by
  intro k
  induction k with
  | zero => intro i s _ j hj; omega
  | succ k ih =>
    intro i s h j hj
    unfold initLoop at h
    cases hb : oracle i with
    | false =>
      rw [hb] at h
      rcases hcc : createConnection false now s with ⟨s1, e⟩
      rw [hcc] at h
      have hne := createConnection_false_err now s
      rw [hcc] at hne
      cases e with
      | some e => simp at h
      | none => exact absurd rfl hne
    | true =>
      rw [hb] at h
      rcases hcc : createConnection true now s with ⟨s1, e⟩
      rw [hcc] at h
      cases e with
      | some e => simp at h
      | none =>
        dsimp only at h
        rcases j with _ | j'
        · simpa using hb
        · have := ih (i + 1) s1 h j' (by omega)
          simpa [Nat.add_assoc, Nat.add_comm 1 j'] using this

/-- A not-yet-closed pool is fully torn down by `Close`. -/
theorem Close_clears (s : COMPool) (h : s.closedOnce = false) :
    (COMPool.Close s).1.connections = [] ∧ (COMPool.Close s).1.activeCount = 0 := by
  unfold COMPool.Close CloseConnections
  rw [h]
  simp

/-- C8: `NewCOMPool` creates exactly `MinPoolSize` (post-normalization)
connections up front when every initial creation succeeds; if any of the
first `MinPoolSize` creations fails it returns an error; and whenever it
returns an error, the internal state has been torn down via `Close`
(empty connection list, `activeCount = 0`), so nothing leaks. -/
theorem NewCOMPool_contract (cfg : Config) (oracle : Nat → Bool) (now : Int) :
    ((∀ j, j < (Config.SetDefaults cfg).MinPoolSize.toNat → oracle j = true) →
      (NewCOMPool cfg oracle now).2 = none
      ∧ (NewCOMPool cfg oracle now).1.activeCount = (Config.SetDefaults cfg).MinPoolSize
      ∧ (NewCOMPool cfg oracle now).1.connections.length
          = (Config.SetDefaults cfg).MinPoolSize.toNat)
    ∧ ((∃ j, j < (Config.SetDefaults cfg).MinPoolSize.toNat ∧ oracle j = false) →
        (NewCOMPool cfg oracle now).2 ≠ none)
    ∧ ((NewCOMPool cfg oracle now).2 ≠ none →
        (NewCOMPool cfg oracle now).1.connections = []
        ∧ (NewCOMPool cfg oracle now).1.activeCount = 0) := by
  obtain ⟨hmax, hmin0, hminmax⟩ := SetDefaults_bounds cfg
  refine ⟨?_, ?_, ?_⟩
  · intro hall
    have hs : (InitConnections oracle now (newPoolState (Config.SetDefaults cfg))).2 = none
        ∧ (InitConnections oracle now (newPoolState (Config.SetDefaults cfg))).1.activeCount
            = (newPoolState (Config.SetDefaults cfg)).activeCount
              + ((Config.SetDefaults cfg).MinPoolSize.toNat : Int)
        ∧ (InitConnections oracle now (newPoolState (Config.SetDefaults cfg))).1.connections.length
            = (newPoolState (Config.SetDefaults cfg)).connections.length
              + (Config.SetDefaults cfg).MinPoolSize.toNat :=
      initLoop_success oracle now (Config.SetDefaults cfg).MinPoolSize.toNat 0
        (newPoolState (Config.SetDefaults cfg))
        (fun j hj => by simpa using hall j hj)
        (by simp only [newPoolState]; omega)
    unfold NewCOMPool
    rcases hinit : InitConnections oracle now (newPoolState (Config.SetDefaults cfg)) with ⟨p1, e⟩
    rw [hinit] at hs
    dsimp only at hs
    obtain ⟨he, hact, hlen⟩ := hs
    subst he
    dsimp only
    refine ⟨rfl, ?_, ?_⟩
    · rw [hact]; simp only [newPoolState]; omega
    · rw [hlen]; simp [newPoolState]
  · rintro ⟨j, hj, hfalse⟩ heq
    unfold NewCOMPool at heq
    rcases hinit : InitConnections oracle now (newPoolState (Config.SetDefaults cfg)) with ⟨p1, e⟩
    rw [hinit] at heq
    cases e with
    | some e => simp at heq
    | none =>
      have hnone : (initLoop oracle now
          (newPoolState (Config.SetDefaults cfg)).cfg.MinPoolSize.toNat 0
          (newPoolState (Config.SetDefaults cfg))).2 = none := by
        rw [show initLoop oracle now
            (newPoolState (Config.SetDefaults cfg)).cfg.MinPoolSize.toNat 0
            (newPoolState (Config.SetDefaults cfg))
          = InitConnections oracle now (newPoolState (Config.SetDefaults cfg)) from rfl, hinit]
      have hall := initLoop_all_true_of_none oracle now
        (newPoolState (Config.SetDefaults cfg)).cfg.MinPoolSize.toNat 0
        (newPoolState (Config.SetDefaults cfg)) hnone j hj
      rw [Nat.zero_add] at hall
      rw [hall] at hfalse
      exact Bool.noConfusion hfalse
  · intro hne
    unfold NewCOMPool at hne ⊢
    rcases hinit : InitConnections oracle now (newPoolState (Config.SetDefaults cfg)) with ⟨p1, e⟩
    rw [hinit] at hne
    cases e with
    | none => exact absurd rfl hne
    | some e =>
      dsimp only
      have h1 : (InitConnections oracle now (newPoolState (Config.SetDefaults cfg))).1.closedOnce
          = (newPoolState (Config.SetDefaults cfg)).closedOnce :=
        initLoop_closedOnce oracle now
          (newPoolState (Config.SetDefaults cfg)).cfg.MinPoolSize.toNat 0
          (newPoolState (Config.SetDefaults cfg))
      rw [hinit] at h1
      exact Close_clears p1 (by rw [h1]; rfl)

/-- Witness for C8: constructing with `Min = 2`, `Max = 2` where the
second initialization fails yields an error and a fully torn-down state. -/
theorem NewCOMPool_contract_applied :
    (NewCOMPool { cfgW with MinPoolSize := 2 } (fun j => j = 0) 0).2 ≠ none
    ∧ (NewCOMPool { cfgW with MinPoolSize := 2 } (fun j => j = 0) 0).1.connections = []
    ∧ (NewCOMPool { cfgW with MinPoolSize := 2 } (fun j => j = 0) 0).1.activeCount = 0 := by
  have h := NewCOMPool_contract { cfgW with MinPoolSize := 2 } (fun j => decide (j = 0)) 0
  have hne := h.2.1 ⟨1, by decide, by decide⟩
  have hcl := h.2.2 hne
  exact ⟨hne, hcl.1, hcl.2⟩

/-! ## C1: the worker serializes commands, one Result each, in order -/

theorem commandClosure_eq (b : Except String ComVal) :
    commandClosure b = [oneResult b] := by
  cases b <;> rfl

theorem comWorkerLoop_cmd (i : Nat) (b : Except String ComVal)
    (rest : List WorkerInput) :
    comWorkerLoop i (WorkerInput.cmd b :: rest)
      = WEvent.start i :: WEvent.emit i (oneResult b) :: WEvent.finish i
          :: comWorkerLoop (i + 1) rest := by
  show (WEvent.start i :: ((commandClosure b).map (WEvent.emit i)
      ++ (WEvent.finish i :: comWorkerLoop (i + 1) rest))) = _
  rw [commandClosure_eq]
  rfl

theorem startIndices_start (i : Nat) (es : List WEvent) :
    startIndices (WEvent.start i :: es) = i :: startIndices es := by
  simp [startIndices, List.filterMap_cons]

theorem startIndices_emit (i : Nat) (r : Result) (es : List WEvent) :
    startIndices (WEvent.emit i r :: es) = startIndices es := by
  simp [startIndices, List.filterMap_cons]

theorem startIndices_finish (i : Nat) (es : List WEvent) :
    startIndices (WEvent.finish i :: es) = startIndices es := by
  simp [startIndices, List.filterMap_cons]

theorem emitsFor_start (j i : Nat) (es : List WEvent) :
    emitsFor j (WEvent.start i :: es) = emitsFor j es := by
  simp [emitsFor, List.filterMap_cons]

theorem emitsFor_finish (j i : Nat) (es : List WEvent) :
    emitsFor j (WEvent.finish i :: es) = emitsFor j es := by
  simp [emitsFor, List.filterMap_cons]

theorem emitsFor_emit (j i : Nat) (r : Result) (es : List WEvent) :
    emitsFor j (WEvent.emit i r :: es)
      = if i = j then r :: emitsFor j es else emitsFor j es := by
  by_cases h : i = j
  · subst h; simp [emitsFor, List.filterMap_cons]
  · simp [emitsFor, List.filterMap_cons, h]

theorem comWorkerLoop_prefix_counts :
    ∀ (inputs : List WorkerInput) (i : Nat) (p q : List WEvent),
      comWorkerLoop i inputs = p ++ q →
      finishCount p ≤ startCount p ∧ startCount p ≤ finishCount p + 1 := by
  intro inputs
  induction inputs with
  | nil =>
    intro i p q h
    have hp : p = [] := (List.append_eq_nil.mp h.symm).1
    subst hp
    simp [startCount, finishCount]
  | cons a rest ih =>
    intro i p q h
    cases a with
    | quit =>
      have hp : p = [] := (List.append_eq_nil.mp h.symm).1
      subst hp
      simp [startCount, finishCount]
    | cmd b =>
      rw [comWorkerLoop_cmd] at h
      cases p with
      | nil => simp [startCount, finishCount]
      | cons e1 p1 =>
        rw [List.cons_append] at h
        injection h with he1 h
        subst he1
        cases p1 with
        | nil => simp [startCount, finishCount]
        | cons e2 p2 =>
          rw [List.cons_append] at h
          injection h with he2 h
          subst he2
          cases p2 with
          | nil => simp [startCount, finishCount]
          | cons e3 p3 =>
            rw [List.cons_append] at h
            injection h with he3 h
            subst he3
            have hih := ih (i + 1) p3 q h
            simp only [startCount, finishCount, List.countP_cons] at hih ⊢
            simp at hih ⊢
            omega

theorem comWorkerLoop_startIndices :
    ∀ (inputs : List WorkerInput) (i : Nat),
      startIndices (comWorkerLoop i inputs)
        = List.range' i (executedCmds inputs).length := by
  intro inputs
  induction inputs with
  | nil => intro i; rfl
  | cons a rest ih =>
    cases a with
    | quit => intro i; rfl
    | cmd b =>
      intro i
      rw [comWorkerLoop_cmd, startIndices_start, startIndices_emit,
        startIndices_finish, ih (i + 1)]
      rw [show (executedCmds (WorkerInput.cmd b :: rest)).length
        = (executedCmds rest).length + 1 from rfl]
      rw [List.range'_succ]

theorem emitsFor_lower :
    ∀ (inputs : List WorkerInput) (i j : Nat), j < i →
      emitsFor j (comWorkerLoop i inputs) = [] := by
  intro inputs
  induction inputs with
  | nil => intro i j hj; rfl
  | cons a rest ih =>
    cases a with
    | quit => intro i j hj; rfl
    | cmd b =>
      intro i j hj
      rw [comWorkerLoop_cmd, emitsFor_start, emitsFor_emit, emitsFor_finish]
      rw [if_neg (by omega)]
      exact ih (i + 1) j (by omega)

theorem comWorkerLoop_emitsFor :
    ∀ (inputs : List WorkerInput) (i k : Nat),
      emitsFor (i + k) (comWorkerLoop i inputs)
        = ((executedCmds inputs)[k]?).elim [] (fun b => [oneResult b]) := by
  intro inputs
  induction inputs with
  | nil => intro i k; simp [emitsFor, executedCmds, comWorkerLoop]
  | cons a rest ih =>
    cases a with
    | quit => intro i k; simp [emitsFor, executedCmds, comWorkerLoop]
    | cmd b =>
      intro i k
      rw [comWorkerLoop_cmd, emitsFor_start, emitsFor_emit, emitsFor_finish]
      cases k with
      | zero =>
        rw [Nat.add_zero, if_pos rfl, emitsFor_lower rest (i + 1) i (by omega)]
        simp [executedCmds]
      | succ k2 =>
        rw [if_neg (by omega)]
        rw [show i + (k2 + 1) = (i + 1) + k2 from by omega]
        rw [ih (i + 1) k2]
        simp [executedCmds]

/-- C1: the worker model of `comWorker`'s loop.  (1) In every prefix of
the event trace, at most one command is in flight (`startCount` never
exceeds `finishCount + 1`, and finishes never outrun starts): commands
run strictly one at a time.  (2) Commands start in submission (queue
FIFO) order: the start indices are exactly `0, 1, …, n-1`.  (3) Exactly
one `Result` is pushed on each executed command's private channel.
(4–5) The closure pushes exactly one `Result`, holding an error or a
success value, never both and never neither.  (6) The synchronous
`COMConnection.ExecuteCommand` returns exactly that outcome. -/
theorem comWorker_serializes (inputs : List WorkerInput) :
    (∀ p q, comWorkerLoop 0 inputs = p ++ q →
        finishCount p ≤ startCount p ∧ startCount p ≤ finishCount p + 1)
    ∧ startIndices (comWorkerLoop 0 inputs) = List.range (executedCmds inputs).length
    ∧ (∀ k, emitsFor k (comWorkerLoop 0 inputs)
        = ((executedCmds inputs)[k]?).elim [] (fun b => [oneResult b]))
    ∧ (∀ b, commandClosure b = [oneResult b])
    ∧ (∀ b, ((oneResult b).error ≠ none ∧ (oneResult b).value = none)
          ∨ ((oneResult b).error = none ∧ (oneResult b).value ≠ none))
    ∧ (∀ b, connExecuteCommand b
        = match b with
          | Except.error e => Except.error e
          | Except.ok v => Except.ok (comValToStr v)) := by
  refine ⟨fun p q h => comWorkerLoop_prefix_counts inputs 0 p q h, ?_, ?_, ?_, ?_, ?_⟩
  · rw [comWorkerLoop_startIndices inputs 0, List.range_eq_range']
  · intro k
    have hx := comWorkerLoop_emitsFor inputs 0 k
    rw [Nat.zero_add] at hx
    exact hx
  · exact commandClosure_eq
  · intro b
    cases b with
    | error e => left; exact ⟨by simp [oneResult], rfl⟩
    | ok v => right; exact ⟨rfl, by simp [oneResult]⟩
  · intro b
    cases b <;> rfl

/-- Witness for C1 on a two-command queue followed by `quit`: the trace
splits as claimed and the counts are in bounds. -/
theorem comWorker_serializes_applied :
    comWorkerLoop 0 [WorkerInput.cmd (Except.ok (ComVal.vstr "a")),
        WorkerInput.cmd (Except.error "boom"), WorkerInput.quit]
      = [WEvent.start 0, WEvent.emit 0 (oneResult (Except.ok (ComVal.vstr "a"))),
         WEvent.finish 0]
        ++ [WEvent.start 1, WEvent.emit 1 (oneResult (Except.error "boom")),
            WEvent.finish 1]
    ∧ finishCount [WEvent.start 0, WEvent.emit 0 (oneResult (Except.ok (ComVal.vstr "a"))),
        WEvent.finish 0]
      ≤ startCount [WEvent.start 0, WEvent.emit 0 (oneResult (Except.ok (ComVal.vstr "a"))),
        WEvent.finish 0] := by
  refine ⟨rfl, ?_⟩
  exact ((comWorker_serializes [WorkerInput.cmd (Except.ok (ComVal.vstr "a")),
      WorkerInput.cmd (Except.error "boom"), WorkerInput.quit]).1 _ _ rfl).1

/-! ## Invariant preservation for the interleaving model (C2, C5) -/

theorem nodup_concat {α : Type _} {l : List α} {a : α}
    (h : l.Nodup) (ha : a ∉ l) : (l ++ [a]).Nodup := by
  rw [List.nodup_append]
  exact ⟨h, List.nodup_singleton a,
    fun x hx hxa => ha ((List.mem_singleton.mp hxa) ▸ hx)⟩

theorem updateConn_map_id (connId : Int) (f : COMConnection → COMConnection)
    (hf : ∀ c, (f c).id = c.id) :
    ∀ l : List COMConnection,
      (updateConn connId f l).map (fun c => c.id) = l.map (fun c => c.id) := by
  intro l
  induction l with
  | nil => rfl
  | cons c cs ih =>
    show (((if c.id = connId then f c else c) :: updateConn connId f cs).map
      (fun c => c.id)) = _
    rw [List.map_cons, List.map_cons, ih]
    by_cases h : c.id = connId
    · rw [if_pos h, hf c]
    · rw [if_neg h]

theorem updateConn_length (connId : Int) (f : COMConnection → COMConnection)
    (l : List COMConnection) :
    (updateConn connId f l).length = l.length :=
  List.length_map l _

/-- Removal via `closeConnection` preserves the pool invariant (it removes at most
one record and keeps count and slice in sync). -/
theorem Inv_closeConnection (connId : Int) (s : COMPool) (hI : Inv s) :
    Inv (closeConnection connId s) := by
  obtain ⟨h0, h1, h2, h3, h4, h5, h6, h7, h8⟩ := hI
  unfold closeConnection
  rcases hr : removeFirst connId s.connections with _ | cs
  · exact ⟨h0, h1, h2, h3, h4, h5, h6, h7, h8⟩
  · have hlen := removeFirst_length connId s.connections cs hr
    have hsub := removeFirst_sublist connId s.connections cs hr
    refine ⟨h0, ?_, ?_, h3, h4, h5, ?_, ?_, ?_⟩
    · dsimp only; omega
    · dsimp only; omega
    · intro c hc hfree
      exact h6 c (hsub.mem hc) hfree
    · exact (hsub.map (fun c => c.id)).nodup h7
    · intro c hc
      exact h8 c (hsub.mem hc)

/-- Clearing the busy flag of a record (the first half of
`ReleaseConnection`) preserves the pool invariant. -/
theorem Inv_clearBusy (now connId : Int) (s : COMPool) (hI : Inv s) :
    Inv { s with connections := updateConn connId (fun c => { c with busy := false, lastUsed := now }) s.connections } := by
  obtain ⟨h0, h1, h2, h3, h4, h5, h6, h7, h8⟩ := hI
  refine ⟨h0, ?_, h2, h3, h4, h5, ?_, ?_, ?_⟩
  · dsimp only
    rw [updateConn_length]
    exact h1
  · intro c hc hfree
    dsimp only at hc hfree
    obtain ⟨c0, hc0, heq⟩ := List.mem_map.mp hc
    by_cases h : c0.id = connId
    · rw [if_pos h] at heq
      rw [← heq]
    · rw [if_neg h] at heq
      subst heq
      exact h6 c0 hc0 hfree
  · dsimp only
    rw [updateConn_map_id connId (fun c => { c with busy := false, lastUsed := now }) (fun c => rfl) s.connections]
    exact h7
  · intro c hc
    dsimp only at hc
    obtain ⟨c0, hc0, heq⟩ := List.mem_map.mp hc
    have hid : c.id = c0.id := by
      by_cases h : c0.id = connId
      · rw [if_pos h] at heq; rw [← heq]
      · rw [if_neg h] at heq; rw [← heq]
    rw [hid]
    exact h8 c0 hc0

/-- Creation via `createConnection` preserves the pool invariant: the capacity check
under the locks keeps `activeCount` within `MaxPoolSize`. -/
theorem Inv_create (initOK : Bool) (now : Int) (s : COMPool) (hI : Inv s) :
    Inv (createConnection initOK now s).1 := by
  obtain ⟨h0, h1, h2, h3, h4, h5, h6, h7, h8⟩ := hI
  unfold Inv createConnection
  split
  · exact ⟨h0, h1, h2, h3, h4, h5, h6, h7, h8⟩
  · rename_i hlt
    dsimp only
    split
    · split
      · rename_i hroom
        dsimp only at hroom ⊢
        refine ⟨h0, ?_, by omega, ?_, ?_, ?_, ?_, ?_, ?_⟩
        · simp only [List.length_append, List.length_singleton]; push_cast; omega
        · exact nodup_concat h3 (fun hmem => by have := h5 _ hmem; omega)
        · rw [List.length_append]; simp only [List.length_singleton]; omega
        · intro i hi
          rcases List.mem_append.mp hi with hi | hi
          · have := h5 i hi; omega
          · have hieq : i = s.nextID := List.mem_singleton.mp hi
            omega
        · intro c hc hfree
          rcases List.mem_append.mp hc with hc | hc
          · rcases List.mem_append.mp hfree with hfree | hfree
            · exact h6 c hc hfree
            · have h9 := h8 c hc
              have h10 : c.id = s.nextID := List.mem_singleton.mp hfree
              omega
          · rw [List.mem_singleton.mp hc]
        · rw [List.map_append]
          exact nodup_concat h7 (fun hmem => by
            obtain ⟨c, hc, hid⟩ := List.mem_map.mp hmem
            have hid2 : c.id = s.nextID := hid
            have := h8 c hc
            omega)
        · intro c hc
          rcases List.mem_append.mp hc with hc | hc
          · have := h8 c hc; omega
          · rw [List.mem_singleton.mp hc]
            show s.nextID < s.nextID + 1
            omega
      · dsimp only
        refine ⟨h0, ?_, by omega, h3, h4, ?_, ?_, ?_, ?_⟩
        · simp only [List.length_append, List.length_singleton]; push_cast; omega
        · intro i hi; have := h5 i hi; omega
        · intro c hc hfree
          rcases List.mem_append.mp hc with hc | hc
          · exact h6 c hc hfree
          · rw [List.mem_singleton.mp hc]
        · rw [List.map_append]
          exact nodup_concat h7 (fun hmem => by
            obtain ⟨c, hc, hid⟩ := List.mem_map.mp hmem
            have hid2 : c.id = s.nextID := hid
            have := h8 c hc
            omega)
        · intro c hc
          rcases List.mem_append.mp hc with hc | hc
          · have := h8 c hc; omega
          · rw [List.mem_singleton.mp hc]
            show s.nextID < s.nextID + 1
            omega
    · dsimp only
      refine ⟨h0, h1, h2, h3, h4, ?_, h6, h7, ?_⟩
      · intro i hi; have := h5 i hi; omega
      · intro c hc; have := h8 c hc; omega

/-- The free-channel hit of `GetConnection` preserves the pool
invariant: the record leaves the channel in the same step that marks it
busy. -/
theorem Inv_acquireFree (now : Int) (s : COMPool) (hI : Inv s) :
    Inv (acquireFree now s).1 := by
  obtain ⟨h0, h1, h2, h3, h4, h5, h6, h7, h8⟩ := hI
  unfold acquireFree
  rcases hf : s.freeConn with _ | ⟨connId, rest⟩
  · exact ⟨h0, h1, h2, h3, h4, h5, h6, h7, h8⟩
  · dsimp only
    have hcons := List.nodup_cons.mp (hf ▸ h3)
    refine ⟨h0, ?_, h2, hcons.2, ?_, ?_, ?_, ?_, ?_⟩
    · dsimp only; rw [updateConn_length]; exact h1
    · have h4' := h4
      rw [hf] at h4'
      simp only [List.length_cons] at h4'
      dsimp only
      omega
    · intro i hi
      exact h5 i (by rw [hf]; exact List.mem_cons_of_mem _ hi)
    · intro c hc hrest
      dsimp only at hc hrest
      obtain ⟨c0, hc0, heq⟩ := List.mem_map.mp hc
      by_cases h : c0.id = connId
      · rw [if_pos h] at heq
        have hcid : c.id = connId := by rw [← heq, markAcquired, h]
        rw [hcid] at hrest
        exact absurd hrest hcons.1
      · rw [if_neg h] at heq
        subst heq
        exact h6 c0 hc0 (by rw [hf]; exact List.mem_cons_of_mem _ hrest)
    · dsimp only
      rw [updateConn_map_id connId (markAcquired now) (fun c => rfl) s.connections]
      exact h7
    · intro c hc
      dsimp only at hc
      obtain ⟨c0, hc0, heq⟩ := List.mem_map.mp hc
      have hid : c.id = c0.id := by
        by_cases h : c0.id = connId
        · rw [if_pos h] at heq; rw [← heq]; rfl
        · rw [if_neg h] at heq; rw [← heq]
      rw [hid]
      exact h8 c0 hc0

/-- Releasing a held (busy) record preserves the pool
invariant: busy is cleared before the record re-enters the channel, and
the channel-full path closes the record instead. -/
theorem Inv_release (now connId : Int) (s : COMPool) (hI : Inv s)
    (hv : ∃ c ∈ s.connections, c.id = connId ∧ c.busy = true) :
    Inv (ReleaseConnection now connId s) := by
  have hnotfree : connId ∉ s.freeConn := by
    obtain ⟨c, hc, hid, hbusy⟩ := hv
    intro hmem
    have := hI.2.2.2.2.2.2.1 c hc (by rw [hid]; exact hmem)
    rw [this] at hbusy
    exact Bool.noConfusion hbusy
  have hid_lt : connId < s.nextID := by
    obtain ⟨c, hc, hid, _⟩ := hv
    have := hI.2.2.2.2.2.2.2.2 c hc
    omega
  have hs1 := Inv_clearBusy now connId s hI
  unfold ReleaseConnection
  dsimp only
  split
  · rename_i hroom
    obtain ⟨g0, g1, g2, g3, g4, g5, g6, g7, g8⟩ := hs1
    dsimp only at g1 g3 g4 g5 g6 g7 g8 hroom ⊢
    refine ⟨g0, g1, g2, ?_, ?_, ?_, ?_, g7, g8⟩
    · exact nodup_concat g3 hnotfree
    · rw [List.length_append]; simp only [List.length_singleton]; omega
    · intro i hi
      rcases List.mem_append.mp hi with hi | hi
      · exact g5 i hi
      · rw [List.mem_singleton.mp hi]; exact hid_lt
    · intro c hc hfree
      rcases List.mem_append.mp hfree with hfree | hfree
      · exact g6 c hc hfree
      · exact updateConn_clear_busy now connId s.connections c hc
          (List.mem_singleton.mp hfree)
  · exact Inv_closeConnection connId _ hs1

/-- Dropping the head of the free channel preserves the invariant. -/
theorem Inv_tail_free (s : COMPool) (f : Int) (fs : List Int)
    (hI : Inv s) (hfree : s.freeConn = f :: fs) :
    Inv { s with freeConn := fs } := by
  obtain ⟨h0, h1, h2, h3, h4, h5, h6, h7, h8⟩ := hI
  rw [hfree] at h3 h4 h5 h6
  have hcons := List.nodup_cons.mp h3
  refine ⟨h0, h1, h2, hcons.2, ?_, ?_, ?_, h7, h8⟩
  · dsimp only
    simp only [List.length_cons] at h4
    omega
  · intro i hi
    exact h5 i (List.mem_cons_of_mem _ hi)
  · intro c hc hfs
    exact h6 c hc (List.mem_cons_of_mem _ hfs)

/-- The dequeue-and-put-back of the reaper (head moved to the tail)
preserves the invariant. -/
theorem Inv_rotate_free (s : COMPool) (f : Int) (fs : List Int)
    (hI : Inv s) (hfree : s.freeConn = f :: fs) :
    Inv { s with freeConn := fs ++ [f] } := by
  obtain ⟨h0, h1, h2, h3, h4, h5, h6, h7, h8⟩ := hI
  rw [hfree] at h3 h4 h5 h6
  have hcons := List.nodup_cons.mp h3
  refine ⟨h0, h1, h2, nodup_concat hcons.2 hcons.1, ?_, ?_, ?_, h7, h8⟩
  · dsimp only
    simp only [List.length_append, List.length_singleton, List.length_cons,
      List.length_nil] at h4 ⊢
    omega
  · intro i hi
    rcases List.mem_append.mp hi with hi | hi
    · exact h5 i (List.mem_cons_of_mem _ hi)
    · rw [List.mem_singleton.mp hi]
      exact h5 f (List.mem_cons_self f fs)
  · intro c hc hmem
    rcases List.mem_append.mp hmem with hm | hm
    · exact h6 c hc (List.mem_cons_of_mem _ hm)
    · exact h6 c hc (by rw [List.mem_singleton.mp hm]; exact List.mem_cons_self f fs)

theorem Inv_cleanupScan (now : Int) :
    ∀ (k i : Nat) (arr : List COMConnection) (s : COMPool),
      Inv s → Inv (cleanupScan now k i arr s) := by
  intro k
  induction k with
  | zero => intro i arr s hI; exact hI
  | succ k ih =>
    intro i arr s hI
    unfold cleanupScan
    split
    · exact hI
    · rename_i c harr
      split
      · exact hI
      · split
        · split
          · exact ih _ _ s hI
          · rename_i f fs hfree
            split
            · exact ih _ _ _ (Inv_closeConnection c.id _ (Inv_tail_free s f fs hI hfree))
            · exact ih _ _ _ (Inv_rotate_free s f fs hI hfree)
        · exact ih _ _ s hI

theorem Inv_cleanup (now : Int) (s : COMPool) (hI : Inv s) :
    Inv (cleanup now s) := by
  unfold cleanup
  split
  · exact hI
  · exact Inv_cleanupScan now _ 0 _ s hI

theorem Inv_close (s : COMPool) (hI : Inv s) :
    Inv (COMPool.Close s).1 := by
  obtain ⟨h0, h1, h2, h3, h4, h5, h6, h7, h8⟩ := hI
  unfold Inv COMPool.Close CloseConnections
  split
  · exact ⟨h0, h1, h2, h3, h4, h5, h6, h7, h8⟩
  · dsimp only
    refine ⟨h0, by simp, by omega, h3, h4, h5, ?_, by simp, ?_⟩
    · intro c hc
      exact absurd hc (List.not_mem_nil c)
    · intro c hc
      exact absurd hc (List.not_mem_nil c)

theorem createConnection_cfg (initOK : Bool) (now : Int) (s : COMPool) :
    (createConnection initOK now s).1.cfg = s.cfg := by
  unfold createConnection
  split
  · rfl
  · dsimp only
    split_ifs <;> rfl

theorem acquireFree_cfg (now : Int) (s : COMPool) :
    (acquireFree now s).1.cfg = s.cfg := by
  unfold acquireFree
  split <;> rfl

theorem ReleaseConnection_cfg (now connId : Int) (s : COMPool) :
    (ReleaseConnection now connId s).cfg = s.cfg := by
  unfold ReleaseConnection
  dsimp only
  split
  · rfl
  · exact closeConnection_cfg connId _

theorem cleanup_cfg (now : Int) (s : COMPool) :
    (cleanup now s).cfg = s.cfg := by
  unfold cleanup
  split
  · rfl
  · exact cleanupScan_cfg now _ 0 _ s

theorem Close_cfg (s : COMPool) : (COMPool.Close s).1.cfg = s.cfg := by
  unfold COMPool.Close CloseConnections
  split <;> rfl

theorem step_cfg (a : PAction) (s : COMPool) : (step a s).cfg = s.cfg := by
  cases a with
  | createA ok now => exact createConnection_cfg ok now s
  | acquireA now => exact acquireFree_cfg now s
  | releaseA connId now => exact ReleaseConnection_cfg now connId s
  | cleanA now => exact cleanup_cfg now s
  | closeA => exact Close_cfg s

/-- Every protocol-valid atomic step preserves the pool invariant. -/
theorem Inv_step (a : PAction) (s : COMPool) (hI : Inv s)
    (hv : validAction s a = true) : Inv (step a s) := by
  cases a with
  | createA ok now => exact Inv_create ok now s hI
  | acquireA now => exact Inv_acquireFree now s hI
  | releaseA connId now =>
    apply Inv_release now connId s hI
    simp only [validAction, List.any_eq_true, Bool.and_eq_true,
      decide_eq_true_eq] at hv
    obtain ⟨c, hc, hid, hbusy⟩ := hv
    exact ⟨c, hc, hid, hbusy⟩
  | cleanA now => exact Inv_cleanup now s hI
  | closeA => exact Inv_close s hI

theorem Inv_run :
    ∀ (acts : List PAction) (s : COMPool), Inv s → validTrace s acts = true →
      Inv (run s acts) ∧ (run s acts).cfg = s.cfg := by
  intro acts
  induction acts with
  | nil => intro s hI _; exact ⟨hI, rfl⟩
  | cons a as ih =>
    intro s hI hv
    unfold validTrace at hv
    rw [Bool.and_eq_true] at hv
    unfold run
    have hrec := ih (step a s) (Inv_step a s hI hv.1) hv.2
    exact ⟨hrec.1, by rw [hrec.2, step_cfg]⟩

/-! ## C2: `activeCount` never exceeds `MaxPoolSize` -/

/-- C2: along every protocol-valid interleaving of creations,
acquisitions, releases, reaper ticks and closes, starting from a state
satisfying the pool invariant, `activeCount` never exceeds
`cfg.MaxPoolSize`: the capacity re-check inside `createConnection`
(performed under the creation and pool locks) makes the check-and-grow
atomic, so concurrent growth attempts cannot jointly exceed the maximum. -/
theorem activeCount_never_exceeds_max (s : COMPool) (acts : List PAction)
    (hI : Inv s) (hv : validTrace s acts = true) :
    (run s acts).activeCount ≤ s.cfg.MaxPoolSize := by
  obtain ⟨hI2, hcfg⟩ := Inv_run acts s hI hv
  have h := hI2.2.2.1
  rw [hcfg] at h
  exact h

/-- Witness for C2: a six-step trace on a fresh two-slot pool. -/
theorem activeCount_never_exceeds_max_applied :
    (run (newPoolState cfgW) [PAction.createA true 1, PAction.createA true 2,
        PAction.acquireA 3, PAction.releaseA 0 4, PAction.cleanA 5,
        PAction.closeA]).activeCount
      ≤ (newPoolState cfgW).cfg.MaxPoolSize := by
  exact activeCount_never_exceeds_max (newPoolState cfgW)
    [PAction.createA true 1, PAction.createA true 2, PAction.acquireA 3,
      PAction.releaseA 0 4, PAction.cleanA 5, PAction.closeA]
    (by decide) (by decide)

/-! ## C5: a record is never both in the free channel and busy -/

/-- C5: in every pool state reachable by a protocol-valid interleaving
from an invariant-satisfying state, no connection record is
simultaneously present in the free channel and marked busy:
`GetConnection` dequeues the record in the same atomic exchange that
marks it busy, and `ReleaseConnection` clears the busy flag before
re-enqueuing. -/
theorem freeConn_busy_exclusion (s : COMPool) (acts : List PAction)
    (hI : Inv s) (hv : validTrace s acts = true) :
    ∀ c ∈ (run s acts).connections,
      c.id ∈ (run s acts).freeConn → c.busy = false :=
  (Inv_run acts s hI hv).1.2.2.2.2.2.2.1

/-- Witness for C5: after acquire-then-release, the re-enqueued record
is in the channel and not busy. -/
theorem freeConn_busy_exclusion_applied :
    (0 : Int) ∈ (run poolW [PAction.acquireA 2, PAction.releaseA 0 3]).freeConn
    ∧ ({ id := 0, lastUsed := 3, useCount := 1, busy := false } : COMConnection)
        ∈ (run poolW [PAction.acquireA 2, PAction.releaseA 0 3]).connections
    ∧ ({ id := 0, lastUsed := 3, useCount := 1, busy := false } : COMConnection).busy
        = false := by
  refine ⟨by decide, by decide, ?_⟩
  exact freeConn_busy_exclusion poolW [PAction.acquireA 2, PAction.releaseA 0 3]
    (by decide) (by decide) { id := 0, lastUsed := 3, useCount := 1, busy := false }
    (by decide) (by decide)

end Gocom1c
